import Mathlib

/-!
Shallow embedding of the core of `src/main.py` (a genre-rating bot):
the persistent stores (progress cursor, ratings), the scoring function
`computed_score`, the pagination helpers of `SearchResultsView` and
`RankView`, the `/search` filter and the `/rank` stable sort.

Python integers are modelled as `Int`, SQLite NULLable columns as
`Option`, boolean flags (stored as 0/1 integers, tested by truthiness)
as `Bool`, float arithmetic as exact rational arithmetic over `Rat`,
and the two key-value tables as functions from keys to `Option` rows.
The wall-clock timestamp taken in `upsert_rating` is passed in as an
explicit parameter.
-/

namespace GenreBot

/-- Embedding of `computed_score` (src/main.py lines 377-391).
`special` and `flou` are the truthiness of the stored flag integers. -/
def computed_score (skip kiff : Option Int) (special flou : Bool) : Option Rat :=
  if special then none
  else
    match skip, kiff with
    | some s, some k =>
        if flou then some (0.35 * (s : Rat) + 0.65 * (k : Rat))
        else some (0.5 * (s : Rat) + 0.5 * (k : Rat))
    | _, _ => none

/-- The `progress` table: maps a `user_id` to its stored cursor, if a row
exists (src/main.py lines 55-60). -/
def ProgressStore : Type := Int → Option Int

/-- Embedding of `get_user_idx` (src/main.py lines 83-92): returns the
stored cursor, or inserts a row with cursor 0 and returns 0 when the user
has no row.  The second component is the table after the call. -/
def get_user_idx (st : ProgressStore) (user_id : Int) : Int × ProgressStore :=
  match st user_id with
  | none => (0, fun v => if v = user_id then some 0 else st v)
  | some i => (i, st)

/-- Embedding of `set_user_idx` (src/main.py lines 95-101):
`INSERT ... ON CONFLICT(user_id) DO UPDATE SET idx=excluded.idx`,
i.e. an unconditional upsert of the cursor row. -/
def set_user_idx (st : ProgressStore) (user_id idx : Int) : ProgressStore :=
  fun v => if v = user_id then some idx else st v

/-- C1: `computed_score` is absent when the special flag is set, or when
either score is absent; otherwise it is `0.35*skip + 0.65*kiff` when the
flou flag is set and `0.5*skip + 0.5*kiff` when it is not. -/
theorem computed_score_spec :
    (∀ (skip kiff : Option Int) (flou : Bool),
        computed_score skip kiff true flou = none) ∧
    (∀ (kiff : Option Int) (special flou : Bool),
        computed_score none kiff special flou = none) ∧
    (∀ (skip : Option Int) (special flou : Bool),
        computed_score skip none special flou = none) ∧
    (∀ s k : Int,
        computed_score (some s) (some k) false true
          = some (0.35 * (s : Rat) + 0.65 * (k : Rat))) ∧
    (∀ s k : Int,
        computed_score (some s) (some k) false false
          = some (0.5 * (s : Rat) + 0.5 * (k : Rat))) := by
  refine ⟨fun skip kiff flou => rfl, fun kiff special flou => ?_,
    fun skip special flou => ?_, fun s k => rfl, fun s k => rfl⟩
  · cases special <;> rfl
  · cases special <;> cases skip <;> rfl

/-- C10: `set_user_idx` on a user with no cursor row creates the row with
the given index, and `get_user_idx` immediately afterwards returns that
index (for any user, with or without a prior row). -/
theorem set_user_idx_creates_row (st : ProgressStore) (user_id idx : Int)
    (h : st user_id = none) :
    set_user_idx st user_id idx user_id = some idx ∧
    (get_user_idx (set_user_idx st user_id idx) user_id).1 = idx := by
  constructor
  · simp [set_user_idx]
  · simp [get_user_idx, set_user_idx]

/-- Witness for C10 at a concrete input: the empty table has no row for
user 5; storing cursor 42 creates the row and a read returns 42. -/
theorem set_user_idx_creates_row_witness :
    set_user_idx (fun _ => none) 5 42 5 = some 42 ∧
    (get_user_idx (set_user_idx (fun _ => none) 5 42) 5).1 = 42 :=
  set_user_idx_creates_row (fun _ => none) 5 42 rfl

/-- One row of the `ratings` table (src/main.py lines 61-73): NULLable
integer scores, flag integers with default 0 (modelled as `Bool`),
NULLable comment, and the `updated_at` text column. -/
structure Rating where
  score1 : Option Int
  score2 : Option Int
  flag1 : Bool
  flag2 : Bool
  comment : Option String
  updated_at : String
deriving DecidableEq, Repr

/-- The `ratings` table: maps a `(user_id, genre_id)` primary key to its
row, if one exists. -/
def RatingsStore : Type := Int × Int → Option Rating

/-- Embedding of `get_rating` (src/main.py lines 104-112). -/
def get_rating (st : RatingsStore) (user_id genre_id : Int) : Option Rating :=
  st (user_id, genre_id)

/-- Embedding of `upsert_rating` (src/main.py lines 115-148).  A `none`
argument means the field was not supplied (the Python default `None`);
the merge keeps the existing value for unsupplied fields, or the column
default when no row exists.  `now` is the timestamp the Python code reads
from the clock. -/
def upsert_rating (st : RatingsStore) (user_id genre_id : Int)
    (score1 score2 : Option Int) (flag1 flag2 : Option Bool)
    (comment : Option String) (now : String) : RatingsStore :=
  let merged : Rating :=
    match get_rating st user_id genre_id with
    | some ex =>
        { score1 := match score1 with | none => ex.score1 | some v => some v
          score2 := match score2 with | none => ex.score2 | some v => some v
          flag1 := match flag1 with | none => ex.flag1 | some v => v
          flag2 := match flag2 with | none => ex.flag2 | some v => v
          comment := match comment with | none => ex.comment | some v => some v
          updated_at := now }
    | none =>
        { score1 := score1
          score2 := score2
          flag1 := match flag1 with | none => false | some v => v
          flag2 := match flag2 with | none => false | some v => v
          comment := comment
          updated_at := now }
  fun k => if k = (user_id, genre_id) then some merged else st k

/-- The value a flag of the merged row must take: the supplied value if
the call supplied one, otherwise the previously stored value, otherwise
the default.  Used only to state the upsert claim. -/
def mergedField {α : Type} (supplied stored : Option α) (dflt : α) : α :=
  match supplied with
  | some v => v
  | none => match stored with
            | some v => v
            | none => dflt

/-- Same, for the NULLable columns (scores, comment), whose default is
NULL: `stored` is the field of the prior row when a row existed. -/
def mergedOptField {α : Type} (supplied : Option α)
    (stored : Option (Option α)) : Option α :=
  match supplied with
  | some v => some v
  | none => match stored with
            | some v => v
            | none => none

/-- C2: `upsert_rating` keeps every unsupplied field at its previously
stored value (or the default when no row existed), sets every supplied
field, stamps `updated_at` with the current time, touches no other key,
and in particular writing `score1 = 7` then `comment = "x"` for the same
key yields a row with both `score1 = 7` and `comment = "x"`. -/
theorem upsert_rating_partial_upsert (st : RatingsStore) (user_id genre_id : Int)
    (score1 score2 : Option Int) (flag1 flag2 : Option Bool)
    (comment : Option String) (now : String) :
    (∀ k, k ≠ (user_id, genre_id) →
        upsert_rating st user_id genre_id score1 score2 flag1 flag2 comment now k
          = st k) ∧
    ((upsert_rating st user_id genre_id score1 score2 flag1 flag2 comment now
        (user_id, genre_id)).map Rating.updated_at = some now ∧
     (upsert_rating st user_id genre_id score1 score2 flag1 flag2 comment now
        (user_id, genre_id)).map Rating.score1
       = some (mergedOptField score1 ((st (user_id, genre_id)).map Rating.score1)) ∧
     (upsert_rating st user_id genre_id score1 score2 flag1 flag2 comment now
        (user_id, genre_id)).map Rating.score2
       = some (mergedOptField score2 ((st (user_id, genre_id)).map Rating.score2)) ∧
     (upsert_rating st user_id genre_id score1 score2 flag1 flag2 comment now
        (user_id, genre_id)).map Rating.flag1
       = some (mergedField flag1 ((st (user_id, genre_id)).map Rating.flag1) false) ∧
     (upsert_rating st user_id genre_id score1 score2 flag1 flag2 comment now
        (user_id, genre_id)).map Rating.flag2
       = some (mergedField flag2 ((st (user_id, genre_id)).map Rating.flag2) false) ∧
     (upsert_rating st user_id genre_id score1 score2 flag1 flag2 comment now
        (user_id, genre_id)).map Rating.comment
       = some (mergedOptField comment ((st (user_id, genre_id)).map Rating.comment))) ∧
    (∀ t1 t2 : String,
      (upsert_rating
          (upsert_rating st user_id genre_id (some 7) none none none none t1)
          user_id genre_id none none none none (some "x") t2
          (user_id, genre_id)).map Rating.score1 = some (some 7) ∧
      (upsert_rating
          (upsert_rating st user_id genre_id (some 7) none none none none t1)
          user_id genre_id none none none none (some "x") t2
          (user_id, genre_id)).map Rating.comment = some (some "x")) := by
  refine ⟨fun k hk => by simp [upsert_rating, hk], ⟨?_, ?_, ?_, ?_, ?_, ?_⟩,
    fun t1 t2 => ⟨?_, ?_⟩⟩ <;>
    cases h : st (user_id, genre_id) with
  | none =>
      cases score1 <;> cases score2 <;> cases flag1 <;> cases flag2 <;>
        cases comment <;>
        simp [upsert_rating, get_rating, mergedField, mergedOptField, h]
  | some ex =>
      cases score1 <;> cases score2 <;> cases flag1 <;> cases flag2 <;>
        cases comment <;>
        simp [upsert_rating, get_rating, mergedField, mergedOptField, h]

/-- Witness for C2 at a concrete input: on the empty table, writing
`score1 = 7` for key `(1, 2)` and then `comment = "x"` for the same key
yields a row carrying both values, and leaves key `(3, 4)` untouched. -/
theorem upsert_rating_partial_upsert_witness :
    (upsert_rating (fun _ => none) 1 2 (some 7) none none none none "t0" (3, 4)
        = none) ∧
    (upsert_rating
        (upsert_rating (fun _ => none) 1 2 (some 7) none none none none "t0")
        1 2 none none none none (some "x") "t1" (1, 2)).map Rating.score1
      = some (some 7) ∧
    (upsert_rating
        (upsert_rating (fun _ => none) 1 2 (some 7) none none none none "t0")
        1 2 none none none none (some "x") "t1" (1, 2)).map Rating.comment
      = some (some "x") :=
  ⟨(upsert_rating_partial_upsert (fun _ => none) 1 2 (some 7) none none none none
      "t0").1 (3, 4) (by decide),
   ((upsert_rating_partial_upsert (fun _ => none) 1 2 (some 7) none none none none
      "t0").2.2 "t0" "t1").1,
   ((upsert_rating_partial_upsert (fun _ => none) 1 2 (some 7) none none none none
      "t0").2.2 "t0" "t1").2⟩

/-- Embedding of the `/next` command `next_genre` (src/main.py lines
270-283): read the cursor (initialising it to 0 if absent), reduce it
modulo the catalog size, serve that catalog entry, and store the reduced
index plus one.  Returns `((genre_id, genre_name), table after call)`.
Python `%` on a non-negative right operand agrees with `Int.emod`. -/
def next_genre (genres : List String) (user_id : Int) (st : ProgressStore) :
    (Int × String) × ProgressStore :=
  let p := get_user_idx st user_id
  let idx := p.1 % (genres.length : Int)
  let st2 := set_user_idx p.2 user_id (idx + 1)
  ((idx, genres.getD idx.toNat ""), st2)

/-- Run `next_genre` `n` times in sequence for one user, collecting the
served genre ids in order. -/
def run_next (genres : List String) (user_id : Int) :
    Nat → ProgressStore → List Int × ProgressStore
  | 0, st => ([], st)
  | n + 1, st =>
      let r := next_genre genres user_id st
      let rest := run_next genres user_id n r.2
      (r.1.1 :: rest.1, rest.2)

lemma next_genre_store_of_some (genres : List String) (user_id : Int)
    (st : ProgressStore) (c : Int) (h : st user_id = some c) :
    (next_genre genres user_id st).1.1 = c % (genres.length : Int) ∧
    (next_genre genres user_id st).2 user_id
      = some (c % (genres.length : Int) + 1) := by
  simp [next_genre, get_user_idx, set_user_idx, h]

lemma run_next_of_some (genres : List String) (user_id : Int) :
    ∀ (n : Nat) (st : ProgressStore) (c : Int), st user_id = some c →
    (run_next genres user_id n st).1
      = (List.range n).map (fun j : Nat => (c + (j : Int)) % (genres.length : Int)) := by
  intro n
  induction n with
  | zero => intro st c h; simp [run_next]
  | succ m ih =>
      intro st c h
      have hstep := next_genre_store_of_some genres user_id st c h
      have htail := ih (next_genre genres user_id st).2
        (c % (genres.length : Int) + 1) hstep.2
      simp only [run_next, htail, hstep.1, List.range_succ_eq_map, List.map_cons,
        List.map_map]
      congr 1
      · simp
      · apply List.map_congr_left
        intro j hj
        simp only [Function.comp_apply]
        have heq : (c % (genres.length : Int) + 1 + (j : Int))
            % (genres.length : Int) = (c + (1 + (j : Int))) % (genres.length : Int) := by
          rw [add_assoc, Int.emod_add_emod]
        rw [heq]
        congr 1
        push_cast
        ring

lemma run_next_of_none (genres : List String) (user_id : Int)
    (n : Nat) (st : ProgressStore) (h : st user_id = none) :
    (run_next genres user_id n st).1
      = (List.range n).map (fun j : Nat => ((j : Int)) % (genres.length : Int)) := by
  cases n with
  | zero => simp [run_next]
  | succ m =>
      have hfirst : (next_genre genres user_id st).1.1 = 0 % (genres.length : Int) ∧
          (next_genre genres user_id st).2 user_id
            = some (0 % (genres.length : Int) + 1) := by
        simp [next_genre, get_user_idx, set_user_idx, h]
      have htail := run_next_of_some genres user_id m (next_genre genres user_id st).2
        (0 % (genres.length : Int) + 1) hfirst.2
      simp only [run_next, htail, hfirst.1, List.range_succ_eq_map, List.map_cons,
        List.map_map]
      congr 1
      · apply List.map_congr_left
        intro j hj
        simp only [Function.comp_apply]
        have heq : ((0 : Int) % (genres.length : Int) + 1 + (j : Int))
            % (genres.length : Int) = ((1 + (j : Int))) % (genres.length : Int) := by
          rw [add_assoc, Int.emod_add_emod, Int.zero_add]
        rw [heq]
        congr 1
        push_cast
        ring

/-- C3 (amended to catalogs of at least 3 items): starting from no stored
cursor, `N + 3` calls of `next_genre` serve the genre ids
`0, 1, ..., N-1, 0, 1, 2` in that order. -/
theorem run_next_cycles (genres : List String) (user_id : Int)
    (st : ProgressStore) (hN : 3 ≤ genres.length) (h : st user_id = none) :
    (run_next genres user_id (genres.length + 3) st).1
      = (List.range genres.length).map (fun j : Nat => (j : Int)) ++ [0, 1, 2] := by
  rw [run_next_of_none genres user_id _ st h]
  set N := genres.length with hNdef
  rw [List.range_add, List.map_append, List.map_map]
  congr 1
  · apply List.map_congr_left
    intro j hj
    have hjN : j < N := List.mem_range.mp hj
    exact Int.emod_eq_of_lt (by positivity) (by exact_mod_cast hjN)
  · have h1 : ((N : Int) + 1) % (N : Int) = 1 := by
      rw [show (N : Int) + 1 = 1 + (N : Int) * 1 by ring, Int.add_mul_emod_self_left]
      exact Int.emod_eq_of_lt (by norm_num) (by exact_mod_cast (by omega : 1 < N))
    have h2 : ((N : Int) + 2) % (N : Int) = 2 := by
      rw [show (N : Int) + 2 = 2 + (N : Int) * 1 by ring, Int.add_mul_emod_self_left]
      exact Int.emod_eq_of_lt (by norm_num) (by exact_mod_cast (by omega : 2 < N))
    rw [show List.range 3 = [0, 1, 2] from rfl]
    simp only [List.map_cons, List.map_nil, Function.comp_apply]
    push_cast
    simp [Int.emod_self, h1, h2]

/-- Witness for C3 at a concrete input: a 3-item catalog and an empty
progress table; 6 calls serve ids 0, 1, 2, 0, 1, 2. -/
theorem run_next_cycles_witness :
    (run_next ["Jazz", "Pop", "Metal"] 0 6 (fun _ => none)).1
      = [0, 1, 2, 0, 1, 2] := by
  have h := run_next_cycles ["Jazz", "Pop", "Metal"] 0 (fun _ => none)
    (by decide) rfl
  simpa using h

/-- C3 counterexample: the claim fails for catalogs of fewer than 3
items.  For the 1-item catalog, `1 + 3 = 4` calls serve ids
`[0, 0, 0, 0]`, not `0, ..., N-1, 0, 1, 2 = [0, 0, 1, 2]`. -/
theorem run_next_cycles_counterexample :
    (run_next ["Jazz"] 0 (["Jazz"].length + 3) (fun _ => none)).1 = [0, 0, 0, 0] ∧
    (run_next ["Jazz"] 0 (["Jazz"].length + 3) (fun _ => none)).1
      ≠ (List.range ["Jazz"].length).map (fun j : Nat => (j : Int)) ++ [0, 1, 2] := by
  constructor
  · decide
  · decide

/-- C4 counterexample: the stored cursor is NOT strictly increasing.
With a 1-item catalog and a stored cursor of 1, a `next_genre` call
stores `1 % 1 + 1 = 1` again: the cursor after the call equals the cursor
before it, so the modulo is applied before storing, not only at read
time. -/
theorem next_genre_cursor_not_increasing :
    (fun v : Int => if v = 0 then some (1 : Int) else none) 0 = some 1 ∧
    (next_genre ["Jazz"] 0 (fun v : Int => if v = 0 then some (1 : Int) else none)).2 0
      = some 1 ∧
    ¬ ((1 : Int) < 1) := by
  refine ⟨rfl, ?_, by norm_num⟩
  simp [next_genre, get_user_idx, set_user_idx]

/-- C4 (amended): `next_genre` stores `(previous cursor mod N) + 1` — the
modulo is applied before the store, so the stored cursor always lies in
`[1, N]` (bounded, and can decrease, e.g. from `N` back to `1`); it does
exceed the reduced index `previous mod N` by exactly one. -/
theorem next_genre_cursor_bounded (genres : List String) (user_id : Int)
    (st : ProgressStore) (c : Int) (hc : st user_id = some c)
    (hN : 0 < genres.length) :
    (next_genre genres user_id st).2 user_id
      = some (c % (genres.length : Int) + 1) ∧
    1 ≤ c % (genres.length : Int) + 1 ∧
    c % (genres.length : Int) + 1 ≤ (genres.length : Int) := by
  have hNz : (genres.length : Int) ≠ 0 := by exact_mod_cast hN.ne.symm
  have h1 : 0 ≤ c % (genres.length : Int) := Int.emod_nonneg c hNz
  have h2 : c % (genres.length : Int) < (genres.length : Int) :=
    Int.emod_lt_of_pos c (by exact_mod_cast hN)
  exact ⟨(next_genre_store_of_some genres user_id st c hc).2, by omega, by omega⟩

/-- Witness for C4 at a concrete input: a 2-item catalog and a stored
cursor of 5; the call stores `5 % 2 + 1 = 2`, which lies in `[1, 2]`. -/
theorem next_genre_cursor_bounded_witness :
    (next_genre ["Jazz", "Pop"] 0 (fun v : Int => if v = 0 then some (5 : Int) else none)).2 0
      = some 2 ∧
    (1 : Int) ≤ 2 ∧ (2 : Int) ≤ 2 := by
  have h := next_genre_cursor_bounded ["Jazz", "Pop"] 0
    (fun v : Int => if v = 0 then some (5 : Int) else none) 5 rfl (by norm_num)
  simpa using h

/-- Python `str.strip`: drop whitespace characters from both ends of the
character sequence. -/
def pyStrip (s : List Char) : List Char :=
  ((s.dropWhile Char.isWhitespace).reverse.dropWhile Char.isWhitespace).reverse

/-- Embedding of the filtering part of `search_genres` (src/main.py lines
349-363): lower-case the stripped query, reject it if empty (`none`),
otherwise keep the enumerated catalog entries whose lower-cased name
contains the query as a substring.  Python `str.strip` is `pyStrip`,
`str.lower` is a character-wise lowering, and `in` on strings is the
substring (infix) relation on the character lists. -/
def search_genres (genres : List String) (query : String) :
    Option (List (Nat × String)) :=
  let q := (pyStrip query.data).map Char.toLower
  if q = [] then none
  else some (genres.enum.filter
    (fun p => decide (q <:+: p.2.data.map Char.toLower)))

/-- C5: a query that is empty after trimming is rejected (the search is
never run); otherwise the result holds exactly the catalog entries whose
lower-cased name contains the lower-cased trimmed query as a substring,
listed in catalog order (strictly ascending ids). -/
theorem search_genres_spec (genres : List String) (query : String) :
    (pyStrip query.data = [] → search_genres genres query = none) ∧
    (pyStrip query.data ≠ [] → ∃ l, search_genres genres query = some l ∧
      l.Pairwise (fun a b => a.1 < b.1) ∧
      ∀ (i : Nat) (g : String), (i, g) ∈ l ↔ genres[i]? = some g ∧
        (pyStrip query.data).map Char.toLower <:+: g.data.map Char.toLower) := by
  constructor
  · intro h
    simp [search_genres, h]
  · intro h
    have hq : (pyStrip query.data).map Char.toLower ≠ [] := by
      intro hc
      exact h (List.map_eq_nil_iff.mp hc)
    refine ⟨genres.enum.filter
        (fun p => decide ((pyStrip query.data).map Char.toLower
          <:+: p.2.data.map Char.toLower)), ?_, ?_, ?_⟩
    · simp only [search_genres]
      rw [if_neg hq]
    · have henum : (genres.enum).Pairwise (fun a b : Nat × String => a.1 < b.1) := by
        rw [← List.pairwise_map (f := Prod.fst)]
        rw [List.enum_map_fst]
        exact List.pairwise_lt_range _
      exact List.Pairwise.sublist (List.filter_sublist _) henum
    · intro i g
      simp [List.mem_filter, List.mk_mem_enum_iff_getElem?]

/-- Witness for C5 at concrete inputs: a whitespace-only query is
rejected, and query `"az"` over `["Jazz", "Pop", "Metal"]` matches
exactly `(0, "Jazz")`. -/
theorem search_genres_spec_witness :
    search_genres ["Jazz", "Pop", "Metal"] "   " = none ∧
    ((0 : Nat), "Jazz") ∈ (search_genres ["Jazz", "Pop", "Metal"] "az").getD [] := by
  refine ⟨(search_genres_spec ["Jazz", "Pop", "Metal"] "   ").1 (by decide), ?_⟩
  obtain ⟨l, hl, hp, hmem⟩ :=
    (search_genres_spec ["Jazz", "Pop", "Metal"] "az").2 (by decide)
  rw [hl, Option.getD_some]
  exact (hmem 0 "Jazz").mpr (by decide)

/-- Embedding of `_total_pages` (src/main.py lines 296-297 and 517-518):
`max(1, math.ceil(n / page_size))`, with the ceiling of the exact
division written as Nat ceiling division. -/
def total_pages (page_size n : Nat) : Nat := max 1 ((n + page_size - 1) / page_size)

/-- Embedding of `_page_slice` (src/main.py lines 299-302 and 520-524):
`start = page*k`, `end = start + k`, and the Python slice
`items[start:end]`, which clamps silently at the sequence length.
Returns `(slice, start, end)` exactly as the code does: note the third
component is `start + k`, not clamped. -/
def page_slice {α : Type} (page_size : Nat) (items : List α) (page : Nat) :
    List α × Nat × Nat :=
  ((items.drop (page * page_size)).take page_size,
    page * page_size, page * page_size + page_size)

/-- Embedding of the previous-page navigation (src/main.py lines 331-335
and 551-555): `max(0, page - 1)`, on Python integers. -/
def prev_page (page : Int) : Int := max 0 (page - 1)

/-- Embedding of the next-page navigation (src/main.py lines 337-341 and
557-561): `min(total_pages - 1, page + 1)`, on Python integers. -/
def next_page (tp page : Int) : Int := min (tp - 1) (page + 1)

lemma ceil_cast_div (n k : Nat) (hk : 1 ≤ k) :
    ⌈(n : ℚ) / (k : ℚ)⌉ = (((n + k - 1) / k : ℕ) : Int) := by
  have hkq : (0 : ℚ) < (k : ℚ) := by exact_mod_cast hk
  set m := (n + k - 1) / k with hm
  have hdm : k * m + (n + k - 1) % k = n + k - 1 := Nat.div_add_mod _ _
  have hmlt : (n + k - 1) % k < k := Nat.mod_lt _ (by omega)
  have hA : n ≤ k * m := by
    generalize k * m = K at hdm ⊢
    omega
  have hB : k * m ≤ n + k - 1 := by
    generalize k * m = K at hdm ⊢
    omega
  rw [Int.ceil_eq_iff]
  constructor
  · rw [lt_div_iff hkq]
    have hcast : ((k : ℚ)) * (m : ℚ) ≤ (n : ℚ) + (k : ℚ) - 1 := by
      have := hB
      have h1 : ((k * m : ℕ) : ℚ) ≤ ((n + k - 1 : ℕ) : ℚ) := by exact_mod_cast this
      have h2 : ((n + k - 1 : ℕ) : ℚ) = (n : ℚ) + (k : ℚ) - 1 := by
        have : 1 ≤ n + k := by omega
        push_cast [this]
        ring
      rw [h2] at h1
      push_cast at h1
      linarith
    push_cast
    linarith
  · rw [div_le_iff hkq]
    have : ((n : ℚ)) ≤ (k : ℚ) * (m : ℚ) := by exact_mod_cast hA
    push_cast
    linarith

/-- C6: for page size `k ≥ 1`, `total_pages` is `max(1, ceil(n / k))`
(ceiling of the exact division), so `total_pages k 0 = 1`; the previous
navigation from page 0 stays at page 0; and the next navigation from the
last page stays at the last page. -/
theorem pagination_bounds (k n : Nat) (hk : 1 ≤ k) :
    total_pages k n = max 1 (Int.toNat ⌈(n : ℚ) / (k : ℚ)⌉) ∧
    total_pages k 0 = 1 ∧
    prev_page 0 = 0 ∧
    next_page (total_pages k n : Int) ((total_pages k n : Int) - 1)
      = (total_pages k n : Int) - 1 := by
  refine ⟨?_, ?_, ?_, ?_⟩
  · rw [ceil_cast_div n k hk, Int.toNat_natCast, total_pages]
  · simp only [total_pages]
    have : (0 + k - 1) / k = 0 := Nat.div_eq_of_lt (by omega)
    omega
  · simp [prev_page]
  · simp only [next_page]
    omega

/-- Witness for C6 at a concrete input: page size 15 and 37 items give 3
pages; the empty sequence gives 1 page; navigation clamps. -/
theorem pagination_bounds_witness :
    total_pages 15 37 = max 1 (Int.toNat ⌈(37 : ℚ) / (15 : ℚ)⌉) ∧
    total_pages 15 0 = 1 ∧
    prev_page 0 = 0 ∧
    next_page (total_pages 15 37 : Int) ((total_pages 15 37 : Int) - 1)
      = (total_pages 15 37 : Int) - 1 := by
  have h := pagination_bounds 15 37 (by norm_num)
  simpa using h

/-- C7 counterexample: `page_slice` does NOT return
`end_offset = min(start + k, n)`.  With page size 15, a 1-item catalog
and page 0, it returns `end_offset = 15`, while `min(0*15 + 15, 1) = 1`. -/
theorem page_slice_end_offset_counterexample :
    page_slice 15 ["Jazz"] 0 = (["Jazz"], 0, 15) ∧
    (page_slice 15 ["Jazz"] 0).2.2 ≠ min (0 * 15 + 15) (["Jazz"].length) := by
  constructor
  · rfl
  · decide

/-- C7 (amended): for `k ≥ 1` and `page` within `[0, total_pages - 1]`,
`page_slice` returns `start_offset = page*k`, `end_offset = start + k`
(not clamped), and the subsequence of the items at positions
`[start, min(start + k, n))` — the slice itself never exceeds the
sequence bounds even though the returned end offset may. -/
theorem page_slice_spec {α : Type} (k : Nat) (items : List α) (page : Nat)
    (hk : 1 ≤ k) (hpage : page ≤ total_pages k items.length - 1) :
    (page_slice k items page).2.1 = page * k ∧
    (page_slice k items page).2.2 = page * k + k ∧
    (page_slice k items page).1.length
      = min (page * k + k) items.length - page * k ∧
    (∀ j : Nat, j < (page_slice k items page).1.length →
      (page_slice k items page).1[j]? = items[page * k + j]?) := by
  refine ⟨rfl, rfl, ?_, ?_⟩
  · simp only [page_slice, List.length_take, List.length_drop]
    omega
  · intro j hj
    simp only [page_slice, List.length_take, List.length_drop] at hj ⊢
    rw [List.getElem?_take, if_pos (by omega), List.getElem?_drop]

/-- Witness for C7 at a concrete input: page size 2 over a 3-item list,
page 1: offsets (2, 4), slice holds the single item at position 2. -/
theorem page_slice_spec_witness :
    (page_slice 2 ["a", "b", "c"] 1).2.1 = 1 * 2 ∧
    (page_slice 2 ["a", "b", "c"] 1).2.2 = 1 * 2 + 2 ∧
    (page_slice 2 ["a", "b", "c"] 1).1.length
      = min (1 * 2 + 2) (["a", "b", "c"].length) - 1 * 2 ∧
    (∀ j : Nat, j < (page_slice 2 ["a", "b", "c"] 1).1.length →
      (page_slice 2 ["a", "b", "c"] 1).1[j]? = ["a", "b", "c"][1 * 2 + j]?) :=
  page_slice_spec 2 ["a", "b", "c"] 1 (by norm_num) (by decide)

/-- An item of the `/rank` view: `(computed score, genre_id, name)`
(src/main.py lines 493-515). -/
abbrev RankItem : Type := Rat × Int × String

/-- Stable ordered insert: `x` is placed before the first element it
compares less-or-equal to, so among elements comparing equal the earlier
input element stays first. -/
def insertS {α : Type} (le : α → α → Bool) (x : α) : List α → List α
  | [] => [x]
  | y :: ys => if le x y then x :: y :: ys else y :: insertS le x ys

/-- Stable insertion sort.  Python `sorted` is a stable sort; for a total
preorder comparison the output of any stable sort is unique, so this
models `sorted(self.items, key=lambda x: x[0], reverse=...)`. -/
def sortS {α : Type} (le : α → α → Bool) : List α → List α
  | [] => []
  | x :: xs => insertS le x (sortS le xs)

/-- The comparison used by `_sorted_items` (src/main.py lines 513-515):
sort key is the score `x[0]`; `reverse=True` (order `"desc"`) reverses
every comparison while keeping stability. -/
def rank_le (order : String) (a b : RankItem) : Bool :=
  if order = "desc" then decide (b.1 ≤ a.1) else decide (a.1 ≤ b.1)

/-- Embedding of `RankView._sorted_items`. -/
def sorted_items (order : String) (items : List RankItem) : List RankItem :=
  sortS (rank_le order) items

lemma mem_insertS {α : Type} (le : α → α → Bool) (x z : α) :
    ∀ l, z ∈ insertS le x l ↔ z = x ∨ z ∈ l
  | [] => by simp [insertS]
  | y :: ys => by
      by_cases hle : le x y = true <;>
        simp [insertS, hle, mem_insertS le x z ys] <;> tauto

lemma insertS_perm {α : Type} (le : α → α → Bool) (x : α) :
    ∀ l, List.Perm (insertS le x l) (x :: l)
  | [] => List.Perm.refl _
  | y :: ys => by
      by_cases hle : le x y = true
      · simp [insertS, hle]
      · simp only [insertS, hle, if_false, Bool.false_eq_true]
        exact (List.Perm.cons y (insertS_perm le x ys)).trans (List.Perm.swap x y ys)

/-- `sortS` permutes its input: together with `sortS_pairwise` this shows
the embedding is a genuine sort. -/
lemma sortS_perm {α : Type} (le : α → α → Bool) :
    ∀ l, List.Perm (sortS le l) l
  | [] => List.Perm.refl _
  | x :: xs =>
      (insertS_perm le x (sortS le xs)).trans (List.Perm.cons x (sortS_perm le xs))

lemma insertS_pairwise {α : Type} (le : α → α → Bool)
    (htot : ∀ a b, le a b = true ∨ le b a = true)
    (htrans : ∀ a b c, le a b = true → le b c = true → le a c = true)
    (x : α) : ∀ l, l.Pairwise (fun a b => le a b = true) →
      (insertS le x l).Pairwise (fun a b => le a b = true)
  | [], _ => by simp [insertS]
  | y :: ys, h => by
      rcases List.pairwise_cons.mp h with ⟨hy, hys⟩
      by_cases hle : le x y = true
      · simp only [insertS, hle, if_true]
        refine List.pairwise_cons.mpr ⟨?_, h⟩
        intro z hz
        rcases List.mem_cons.mp hz with rfl | hz
        · exact hle
        · exact htrans x y z hle (hy z hz)
      · simp only [insertS, hle, if_false, Bool.false_eq_true]
        refine List.pairwise_cons.mpr ⟨?_, insertS_pairwise le htot htrans x ys hys⟩
        intro z hz
        rcases (mem_insertS le x z ys).mp hz with rfl | hz
        · rcases htot z y with hzy | hyz
          · exact absurd hzy hle
          · exact hyz
        · exact hy z hz

/-- `sortS` output is sorted for a total transitive comparison. -/
lemma sortS_pairwise {α : Type} (le : α → α → Bool)
    (htot : ∀ a b, le a b = true ∨ le b a = true)
    (htrans : ∀ a b c, le a b = true → le b c = true → le a c = true) :
    ∀ l : List α, (sortS le l).Pairwise (fun a b => le a b = true)
  | [] => by simp [sortS]
  | x :: xs => insertS_pairwise le htot htrans x _ (sortS_pairwise le htot htrans xs)

lemma filter_insertS_pos {α : Type} (le : α → α → Bool) (p : α → Bool) (x : α)
    (hx : p x = true) (h : ∀ y, p y = true → le x y = true) :
    ∀ l, (insertS le x l).filter p = x :: l.filter p
  | [] => by simp [insertS, hx]
  | y :: ys => by
      by_cases hle : le x y = true
      · simp [insertS, hle, hx]
      · have hpy : p y = false := by
          cases hpy : p y
          · rfl
          · exact absurd (h y hpy) hle
        simp [insertS, hle, hpy, filter_insertS_pos le p x hx h ys]

lemma filter_insertS_neg {α : Type} (le : α → α → Bool) (p : α → Bool) (x : α)
    (hx : p x = false) :
    ∀ l, (insertS le x l).filter p = l.filter p
  | [] => by simp [insertS, hx]
  | y :: ys => by
      by_cases hle : le x y = true
      · simp [insertS, hle, hx]
      · cases hpy : p y <;>
          simp [insertS, hle, hpy, hx, filter_insertS_neg le p x hx ys]

/-- Stability of `sortS` relative to a predicate whose members all
compare mutually less-or-equal: their subsequence is untouched. -/
lemma sortS_filter_eq {α : Type} (le : α → α → Bool) (p : α → Bool)
    (h : ∀ x y, p x = true → p y = true → le x y = true) :
    ∀ l, (sortS le l).filter p = l.filter p
  | [] => rfl
  | x :: xs => by
      cases hx : p x
      · rw [sortS, filter_insertS_neg le p x hx, sortS_filter_eq le p h xs]
        simp [hx]
      · rw [sortS, filter_insertS_pos le p x hx (fun y hy => h x y hx hy),
          sortS_filter_eq le p h xs]
        simp [hx]

/-- C8: the ranking sort is stable under ties — for any sort direction
(both `"desc"` and `"asc"`), the items whose computed score equals any
fixed value `s` appear in the sorted output in exactly their original
fetch order. -/
theorem sorted_items_stable (order : String) (items : List RankItem) (s : Rat) :
    (sorted_items order items).filter (fun x => decide (x.1 = s))
      = items.filter (fun x => decide (x.1 = s)) := by
  apply sortS_filter_eq
  intro x y hx hy
  have hx1 : x.1 = s := of_decide_eq_true hx
  have hy1 : y.1 = s := of_decide_eq_true hy
  by_cases h : order = "desc" <;> simp [rank_le, h, hx1, hy1]

end GenreBot
